import Mathlib

/-!
Shallow embedding of the two calculator implementations in this repository:

* `HW8/operations.py`: a restricted-grammar arithmetic expression evaluator
  (`_eval_node`, `evaluate_expression`) and a two-operand `calculate` function;
* `HW8/HW8/main.py`: the HTTP handlers `get_calc`, `post_calc`, `get_history`
  and the in-memory `History` store used by the tests;
* `calculator/__init__.py`: the REPL calculator (`InputValidator`,
  `CalculatorHistory`, `Calculator._handle_calculation`).

Python numbers are modelled as a tagged sum of integers and floats, with
floats represented by exact rationals (no claim here depends on IEEE
rounding).  Python exceptions are modelled by `Except Err`.
-/

/-- Error values corresponding to the Python exceptions the code can raise:
`ValueError`, `ZeroDivisionError`, and `SyntaxError` (from `ast.parse`). -/
inductive Err where
  | valueError
  | zeroDivision
  | synError
  deriving DecidableEq, Repr

/-- A Python number: `int` or `float`, floats modelled as exact rationals. -/
inductive Value where
  | vint (n : Int)
  | vfloat (q : ℚ)
  deriving DecidableEq, Repr

/-- Numeric value of a Python number. -/
def Value.toRat : Value → ℚ
  | .vint n => (n : ℚ)
  | .vfloat q => q

/-- Python `+` on numbers: `int + int` is `int`, anything involving a float
is a float. -/
def pyAdd : Value → Value → Value
  | .vint a, .vint b => .vint (a + b)
  | a, b => .vfloat (a.toRat + b.toRat)

/-- Python `-` on numbers. -/
def pySub : Value → Value → Value
  | .vint a, .vint b => .vint (a - b)
  | a, b => .vfloat (a.toRat - b.toRat)

/-- Python `*` on numbers. -/
def pyMul : Value → Value → Value
  | .vint a, .vint b => .vint (a * b)
  | a, b => .vfloat (a.toRat * b.toRat)

/-- Python unary minus on numbers. -/
def pyNeg : Value → Value
  | .vint a => .vint (-a)
  | .vfloat q => .vfloat (-q)

/-- Python true division `/`: always returns a float, raises
`ZeroDivisionError` when the divisor is the integer `0` or the float `0.0`. -/
def pyDiv (a b : Value) : Except Err Value :=
  if b.toRat = 0 then .error .zeroDivision
  else .ok (.vfloat (a.toRat / b.toRat))

/-- Binary operator kinds of the Python `ast` nodes the parser can produce
on arithmetic input (`Add`, `Sub`, `Mult`, `Div`, `Mod`, `Pow`, `FloorDiv`). -/
inductive BinOpKind where
  | add
  | sub
  | mult
  | div
  | mod
  | pow
  | floordiv
  deriving DecidableEq, Repr

/-- Unary operator kinds: `UAdd`, `USub`, and any other unary op. -/
inductive UnaryKind where
  | uadd
  | usub
  | otherUnary
  deriving DecidableEq, Repr

/-- A literal constant: numeric (`int` or `float`) or non-numeric. -/
inductive Const where
  | cint (n : Int)
  | cfloat (q : ℚ)
  | cother
  deriving DecidableEq, Repr

/-- The fragment of the Python `ast` node type visited by `_eval_node`:
`Expression` wrapper, `BinOp`, `UnaryOp`, `Constant`, other nodes. -/
inductive Node where
  | expr (body : Node)
  | binop (l : Node) (op : BinOpKind) (r : Node)
  | unary (op : UnaryKind) (operand : Node)
  | const (c : Const)
  | othernode
  deriving DecidableEq, Repr

/-- The `_OPS` table of `HW8/operations.py`: the supported operator kinds
bound to their two-argument functions; other kinds are absent. -/
def _OPS (op : BinOpKind) : Option (Value → Value → Except Err Value) :=
  match op with
  | .add => some (fun a b => .ok (pyAdd a b))
  | .sub => some (fun a b => .ok (pySub a b))
  | .mult => some (fun a b => .ok (pyMul a b))
  | .div => some pyDiv
  | _ => none

/-- Embedding of `_eval_node` from `HW8/operations.py`: evaluates both
children of a `BinOp` before looking the operator up in `_OPS`, handles
unary `+`/`-`, accepts only numeric constants, and raises `ValueError` on
everything else. -/
def _eval_node : Node → Except Err Value
  | .expr b => _eval_node b
  | .binop l op r =>
      match _eval_node l with
      | .error e => .error e
      | .ok lv =>
        match _eval_node r with
        | .error e => .error e
        | .ok rv =>
          match _OPS op with
          | some f => f lv rv
          | none => .error .valueError
  | .unary .uadd e =>
      match _eval_node e with
      | .ok v => .ok v
      | .error er => .error er
  | .unary .usub e =>
      match _eval_node e with
      | .ok v => .ok (pyNeg v)
      | .error er => .error er
  | .unary .otherUnary _ => .error .valueError
  | .const (.cint n) => .ok (.vint n)
  | .const (.cfloat q) => .ok (.vfloat q)
  | .const .cother => .error .valueError
  | .othernode => .error .valueError

/-- Spec-side denotation: the numeric value of an expression tree under
standard arithmetic, `none` on division by zero or on any node outside the
restricted grammar.  Written from the spec's reading of the evaluator, to be
compared with `_eval_node`. -/
def specEval : Node → Option ℚ
  | .expr b => specEval b
  | .binop l op r =>
      match specEval l, specEval r with
      | some a, some b =>
        match op with
        | .add => some (a + b)
        | .sub => some (a - b)
        | .mult => some (a * b)
        | .div => if b = 0 then none else some (a / b)
        | _ => none
      | _, _ => none
  | .unary .uadd e => specEval e
  | .unary .usub e => (specEval e).map (fun q => -q)
  | .unary .otherUnary _ => none
  | .const (.cint n) => some ((n : ℚ))
  | .const (.cfloat q) => some q
  | .const .cother => none
  | .othernode => none

/-- The binary operator kinds present in the `_OPS` table. -/
def isSupportedBin : BinOpKind → Bool
  | .add | .sub | .mult | .div => true
  | _ => false

/-- The unary operator kinds `_eval_node` handles. -/
def isSupportedUnary : UnaryKind → Bool
  | .uadd | .usub => true
  | _ => false

/-- Membership of a tree in the restricted grammar: binary operators only
`+ - * /`, unary operators only `+ -`, constants numeric. -/
def supported : Node → Bool
  | .expr b => supported b
  | .binop l op r => isSupportedBin op && supported l && supported r
  | .unary op e => isSupportedUnary op && supported e
  | .const (.cint _) => true
  | .const (.cfloat _) => true
  | .const .cother => false
  | .othernode => false

/-- A tree contains a binary operator outside the supported set, or a
non-numeric constant. -/
def containsBad : Node → Bool
  | .expr b => containsBad b
  | .binop l op r => !isSupportedBin op || containsBad l || containsBad r
  | .unary _ e => containsBad e
  | .const .cother => true
  | .const _ => false
  | .othernode => false

/-- Tokens of the arithmetic fragment accepted by `ast.parse` that the
evaluator can meet: numeric literals and the operator symbols
`+ - * / % ** //`.  Parenthesised input is outside the modelled fragment. -/
inductive Tok where
  | num (c : Const)
  | plusT
  | minusT
  | starT
  | slashT
  | percentT
  | dstarT
  | dslashT
  deriving DecidableEq, Repr

/-- Decimal value of a digit string. -/
def digitsVal (acc : Nat) : List Char → Nat
  | [] => acc
  | c :: cs => digitsVal (acc * 10 + (c.toNat - 48)) cs

/-- Tokenizer for the arithmetic fragment: skips spaces, reads integer and
decimal-point float literals, and the operator symbols.  Fuel-indexed; each
step consumes at least one character. -/
def tokenize : Nat → List Char → Option (List Tok)
  | 0, _ => none
  | _ + 1, [] => some []
  | fuel + 1, c :: cs =>
      if c = ' ' then tokenize fuel cs
      else if c.isDigit then
        let ds := List.takeWhile Char.isDigit (c :: cs)
        let rest := List.dropWhile Char.isDigit (c :: cs)
        match rest with
        | '.' :: r2 =>
            let fs := List.takeWhile Char.isDigit r2
            let r3 := List.dropWhile Char.isDigit r2
            (tokenize fuel r3).map
              (fun ts => Tok.num (.cfloat ((digitsVal 0 ds : ℚ) +
                (digitsVal 0 fs : ℚ) / (10 : ℚ) ^ fs.length)) :: ts)
        | _ => (tokenize fuel rest).map
            (fun ts => Tok.num (.cint (digitsVal 0 ds)) :: ts)
      else if c = '+' then (tokenize fuel cs).map (Tok.plusT :: ·)
      else if c = '-' then (tokenize fuel cs).map (Tok.minusT :: ·)
      else if c = '%' then (tokenize fuel cs).map (Tok.percentT :: ·)
      else if c = '*' then
        match cs with
        | '*' :: cs2 => (tokenize fuel cs2).map (Tok.dstarT :: ·)
        | _ => (tokenize fuel cs).map (Tok.starT :: ·)
      else if c = '/' then
        match cs with
        | '/' :: cs2 => (tokenize fuel cs2).map (Tok.dslashT :: ·)
        | _ => (tokenize fuel cs).map (Tok.slashT :: ·)
      else none

/-- Atom of the expression grammar: a numeric literal. -/
def parseAtom : List Tok → Option (Node × List Tok)
  | .num c :: ts => some (.const c, ts)
  | _ => none

/-- Python grammar rule `factor`: unary `+`/`-` chains over `power`, where
`power` is `atom ['**' factor]` (so `**` binds tighter than unary minus on
its left and takes a `factor` on its right). -/
def parseF : Nat → List Tok → Option (Node × List Tok)
  | 0, _ => none
  | fuel + 1, .plusT :: ts =>
      match parseF fuel ts with
      | some (e, rest) => some (.unary .uadd e, rest)
      | none => none
  | fuel + 1, .minusT :: ts =>
      match parseF fuel ts with
      | some (e, rest) => some (.unary .usub e, rest)
      | none => none
  | fuel + 1, ts =>
      match parseAtom ts with
      | some (a, .dstarT :: ts2) =>
          match parseF fuel ts2 with
          | some (b, rest) => some (.binop a .pow b, rest)
          | none => none
      | r => r

/-- Left-associative loop of Python grammar rule `term`:
`factor (('*'|'/'|'%'|'//') factor)*`. -/
def parseTLoop : Nat → Node → List Tok → Option (Node × List Tok)
  | 0, _, _ => none
  | fuel + 1, acc, .starT :: ts =>
      match parseF (ts.length + 1) ts with
      | some (b, rest) => parseTLoop fuel (.binop acc .mult b) rest
      | none => none
  | fuel + 1, acc, .slashT :: ts =>
      match parseF (ts.length + 1) ts with
      | some (b, rest) => parseTLoop fuel (.binop acc .div b) rest
      | none => none
  | fuel + 1, acc, .percentT :: ts =>
      match parseF (ts.length + 1) ts with
      | some (b, rest) => parseTLoop fuel (.binop acc .mod b) rest
      | none => none
  | fuel + 1, acc, .dslashT :: ts =>
      match parseF (ts.length + 1) ts with
      | some (b, rest) => parseTLoop fuel (.binop acc .floordiv b) rest
      | none => none
  | _ + 1, acc, ts => some (acc, ts)

/-- Python grammar rule `term`. -/
def parseT (ts : List Tok) : Option (Node × List Tok) :=
  match parseF (ts.length + 1) ts with
  | some (a, rest) => parseTLoop (rest.length + 1) a rest
  | none => none

/-- Left-associative loop of Python grammar rule for additive expressions:
`term (('+'|'-') term)*`. -/
def parseELoop : Nat → Node → List Tok → Option (Node × List Tok)
  | 0, _, _ => none
  | fuel + 1, acc, .plusT :: ts =>
      match parseT ts with
      | some (b, rest) => parseELoop fuel (.binop acc .add b) rest
      | none => none
  | fuel + 1, acc, .minusT :: ts =>
      match parseT ts with
      | some (b, rest) => parseELoop fuel (.binop acc .sub b) rest
      | none => none
  | _ + 1, acc, ts => some (acc, ts)

/-- Additive expression: the start symbol of the arithmetic fragment. -/
def parseE (ts : List Tok) : Option (Node × List Tok) :=
  match parseT ts with
  | some (a, rest) => parseELoop (rest.length + 1) a rest
  | none => none

/-- Model of `ast.parse(expr, mode="eval")` on the arithmetic fragment:
tokenize, parse with standard precedence, require all input consumed, wrap
the body in an `Expression` node.  `none` models `SyntaxError`. -/
def parseExpr (s : String) : Option Node :=
  match tokenize (s.data.length + 1) s.data with
  | none => none
  | some ts =>
      match parseE ts with
      | some (e, []) => some (.expr e)
      | _ => none

/-- Embedding of `evaluate_expression` from `HW8/operations.py`: parse the
string and reduce the tree with `_eval_node`, re-raising any exception. -/
def evaluate_expression (s : String) : Except Err Value :=
  match parseExpr s with
  | none => .error .synError
  | some t => _eval_node t

/-- Embedding of `calculate` from `HW8/operations.py`: look the operator
symbol up among `+ - * /`, raise `ValueError` when absent, apply it and
re-raise any exception from the application. -/
def calculate (first last : Value) (operator_symbol : String) : Except Err Value :=
  if operator_symbol = "+" then .ok (pyAdd first last)
  else if operator_symbol = "-" then .ok (pySub first last)
  else if operator_symbol = "*" then .ok (pyMul first last)
  else if operator_symbol = "/" then pyDiv first last
  else .error .valueError

/-- Leading and trailing whitespace removal, Python `str.strip()`. -/
def pyStrip (s : List Char) : List Char :=
  ((s.dropWhile Char.isWhitespace).reverse.dropWhile Char.isWhitespace).reverse

/-- Lower-casing, Python `str.lower()` on ASCII input. -/
def pyLower (s : List Char) : List Char :=
  s.map Char.toLower

/-- Whitespace splitting with empty fields dropped, Python `str.split()`.
Fuel-indexed; each step consumes at least one character. -/
def pySplitWs : Nat → List Char → List (List Char)
  | 0, _ => []
  | _ + 1, [] => []
  | fuel + 1, c :: cs =>
      if c.isWhitespace then pySplitWs fuel cs
      else
        List.takeWhile (fun d => !d.isWhitespace) (c :: cs) ::
          pySplitWs fuel (List.dropWhile (fun d => !d.isWhitespace) (c :: cs))

/-- Nonempty all-digit string read as a natural number. -/
def pyDigits (ds : List Char) : Option Nat :=
  if ds.isEmpty then none
  else if ds.all Char.isDigit then some (digitsVal 0 ds) else none

/-- Model of the Python builtin `int(str)` on stripped input: optional sign
followed by digits. -/
def pyInt : List Char → Option Int
  | '+' :: ds => (pyDigits ds).map (fun n => (n : Int))
  | '-' :: ds => (pyDigits ds).map (fun n => -(n : Int))
  | ds => (pyDigits ds).map (fun n => (n : Int))

/-- Signed exponent of a float literal: optional sign followed by digits. -/
def pyExpDigits : List Char → Option Int
  | '+' :: ds => (pyDigits ds).map (fun n => (n : Int))
  | '-' :: ds => (pyDigits ds).map (fun n => -(n : Int))
  | ds => (pyDigits ds).map (fun n => (n : Int))

/-- Optional `e`/`E` exponent suffix applied to a mantissa. -/
def pyExp (m : ℚ) : List Char → Option ℚ
  | [] => some m
  | 'e' :: r => (pyExpDigits r).map (fun e => m * (10 : ℚ) ^ e)
  | 'E' :: r => (pyExpDigits r).map (fun e => m * (10 : ℚ) ^ e)
  | _ => none

/-- Unsigned decimal mantissa with optional fraction and exponent. -/
def pyFloatCore (s : List Char) : Option ℚ :=
  let intPart := List.takeWhile Char.isDigit s
  let rest := List.dropWhile Char.isDigit s
  match rest with
  | '.' :: r2 =>
      let frac := List.takeWhile Char.isDigit r2
      let r3 := List.dropWhile Char.isDigit r2
      if intPart.isEmpty && frac.isEmpty then none
      else pyExp ((digitsVal 0 intPart : ℚ) +
        (digitsVal 0 frac : ℚ) / (10 : ℚ) ^ frac.length) r3
  | r2 =>
      if intPart.isEmpty then none
      else pyExp (digitsVal 0 intPart : ℚ) r2

/-- Model of the Python builtin `float(str)` on stripped input (decimal
literals; `inf`/`nan` spellings are outside the modelled fragment). -/
def pyFloat : List Char → Option ℚ
  | '+' :: r => pyFloatCore r
  | '-' :: r => (pyFloatCore r).map (fun q => -q)
  | r => pyFloatCore r

/-- Embedding of `InputValidator.validate_number` from
`calculator/__init__.py`: strip, reject empty input, parse as `int` when the
text has no `.` and no `e`/`E`, otherwise as `float`; `ValueError` on
failure. -/
def validate_number (value : String) : Except Err Value :=
  let v := pyStrip value.data
  if v.isEmpty then .error .valueError
  else if !v.contains '.' && !(pyLower v).contains 'e' then
    match pyInt v with
    | some n => .ok (.vint n)
    | none => .error .valueError
  else
    match pyFloat v with
    | some q => .ok (.vfloat q)
    | none => .error .valueError

/-- The `valid_operations` list of `InputValidator.validate_operation`. -/
def valid_operations : List String :=
  ["add", "subtract", "multiply", "divide", "+", "-", "*", "/"]

/-- Embedding of `InputValidator.validate_operation`: strip, reject empty
input, accept exactly the operations whose lower-casing is in
`valid_operations`, returning the stripped original. -/
def validate_operation (operation : String) : Except Err String :=
  let op := pyStrip operation.data
  if op.isEmpty then .error .valueError
  else if valid_operations.contains (String.mk (pyLower op)) then
    .ok (String.mk op)
  else .error .valueError

/-- Modelled from the spec: the repository's `calculation` module (imported
by `calculator/__init__.py` but not present in the source tree) provides a
`Calculation` of two operands and an operation, holding its result after
execution. -/
structure Calculation where
  a : Value
  b : Value
  op : String
  result : Option Value
  deriving DecidableEq, Repr

/-- Modelled from the spec: the strategy table of the missing `calculation`
module, "binding an operator symbol to a two-argument function"; symbol and
word spellings accepted by `validate_operation` are bound, division raising
`ZeroDivisionError` on a zero divisor. -/
def opFunction (op : String) : Option (Value → Value → Except Err Value) :=
  let o := String.mk (pyLower op.data)
  if o = "+" || o = "add" then some (fun a b => .ok (pyAdd a b))
  else if o = "-" || o = "subtract" then some (fun a b => .ok (pySub a b))
  else if o = "*" || o = "multiply" then some (fun a b => .ok (pyMul a b))
  else if o = "/" || o = "divide" then some pyDiv
  else none

/-- Modelled from the spec: `CalculationFactory.create_calculation` of the
missing `calculation` module builds a `Calculation` for an operator symbol
with a binding, raising `ValueError` otherwise. -/
def CalculationFactory.create_calculation (a b : Value) (op : String) :
    Except Err Calculation :=
  match opFunction op with
  | some _ => .ok ⟨a, b, op, none⟩
  | none => .error .valueError

/-- Modelled from the spec: `Calculation.execute` of the missing
`calculation` module applies the two-argument function bound to the
operator symbol to the two operands, storing the result. -/
def Calculation.execute (c : Calculation) : Except Err Calculation :=
  match opFunction c.op with
  | none => .error .valueError
  | some f =>
      match f c.a c.b with
      | .ok v => .ok ⟨c.a, c.b, c.op, some v⟩
      | .error e => .error e

/-- Embedding of `Calculator._handle_calculation` from
`calculator/__init__.py`, tracking its effect on the in-memory history:
split the input, validate both numbers and the operation, create and
execute the calculation, and append it to the history only when everything
succeeded; every failure path leaves the history as it was. -/
def _handle_calculation (expression : String) (history : List Calculation) :
    List Calculation :=
  match pySplitWs (expression.data.length + 1) expression.data with
  | [p0, p1, p2] =>
      match validate_number (String.mk p0), validate_operation (String.mk p1),
          validate_number (String.mk p2) with
      | .ok n1, .ok op, .ok n2 =>
          match CalculationFactory.create_calculation n1 n2 op with
          | .ok c =>
              match c.execute with
              | .ok c2 => history ++ [c2]
              | .error _ => history
          | .error _ => history
      | _, _, _ => history
  | _ => history

/-- The success condition of `_handle_calculation` as the claim states it:
the input splits into exactly three parts, the first and third validate as
numbers, the second validates as an operation, and the created calculation
executes successfully. -/
def calcOk (expression : String) : Bool :=
  match pySplitWs (expression.data.length + 1) expression.data with
  | [p0, p1, p2] =>
      match validate_number (String.mk p0), validate_operation (String.mk p1),
          validate_number (String.mk p2) with
      | .ok n1, .ok op, .ok n2 =>
          match CalculationFactory.create_calculation n1 n2 op with
          | .ok c =>
              match c.execute with
              | .ok _ => true
              | .error _ => false
          | .error _ => false
      | _, _, _ => false
  | _ => false

/-- Heap of list references.  Python's `CalculatorHistory` holds a reference
to a mutable list; modelling references explicitly lets the copying
behaviour of `get_history` be stated.  Addresses below `next` are live. -/
structure Heap where
  mem : Nat → List Calculation
  next : Nat

/-- Overwrite the list a reference points at: the effect of a caller
mutating a list in place (`clear`, `append`, element removal all produce
some new contents). -/
def listSet (r : Nat) (l : List Calculation) (h : Heap) : Heap :=
  ⟨fun n => if n = r then l else h.mem n, h.next⟩

/-- Embedding of `CalculatorHistory.add_calculation`: append to the list
the history object references. -/
def CalculatorHistory.add_calculation (self : Nat) (calculation : Calculation)
    (h : Heap) : Heap :=
  listSet self (h.mem self ++ [calculation]) h

/-- Embedding of `CalculatorHistory.get_history`: allocate a fresh list
holding a copy of the history (`self._history.copy()`) and return the new
reference. -/
def CalculatorHistory.get_history (self : Nat) (h : Heap) : Nat × Heap :=
  (h.next, ⟨fun n => if n = h.next then h.mem self else h.mem n, h.next + 1⟩)

/-- Embedding of `CalculatorHistory.get_last_calculation`:
`self._history[-1] if self._history else None`. -/
def CalculatorHistory.get_last_calculation (self : Nat) (h : Heap) :
    Option Calculation :=
  (h.mem self).getLast?

/-- Embedding of `CalculatorHistory.__len__`. -/
def CalculatorHistory.len (self : Nat) (h : Heap) : Nat :=
  (h.mem self).length

/-- Embedding of `CalculatorHistory.clear_history`. -/
def CalculatorHistory.clear_history (self : Nat) (h : Heap) : Heap :=
  listSet self [] h

/-- A record of the in-memory `History` store of `HW8/HW8/main.py`
(operation, result, timestamp, id). -/
structure HistEntry where
  operation : String
  result : String
  created_at : String
  uid : String
  deriving DecidableEq, Repr

/-- Embedding of `History(...).save()` from `HW8/HW8/main.py`: append one
record to the store and return the new record's id.  The timestamp and the
generated uuid are inputs to the model. -/
def History.save (operation result created_at uid : String)
    (store : List HistEntry) : String × List HistEntry :=
  (uid, store ++ [⟨operation, result, created_at, uid⟩])

/-- Embedding of the `GET /history` handler: `History.objects().to_json()`
serialises every stored record. -/
def get_history (store : List HistEntry) : List HistEntry :=
  store

/-- Decimal string of a Python integer. -/
def intStr (n : Int) : String :=
  toString n

/-- Embedding of the `_fmt` helper inside `get_calc`: an integral float is
printed as `str(int(v))`, everything else as `str(v)`.  The string form of a
non-integral float is the parameter `floatStr`. -/
def _fmt (floatStr : ℚ → String) : Value → String
  | .vfloat q => if q.den = 1 then intStr q.num else floatStr q
  | .vint n => intStr n

/-- Embedding of the inline result formatting of `post_calc` (the
`try`/`except` block guarding `responce['result']`). -/
def postFmt (floatStr : ℚ → String) : Value → String
  | .vfloat q => if q.den = 1 then intStr q.num else floatStr q
  | .vint n => intStr n

/-- Response schema of the calc endpoints (spelling from the source). -/
structure CalcResponce where
  result : String
  operation : String
  uid : String
  deriving DecidableEq, Repr

/-- Embedding of the `GET /calc` handler: evaluate the expression, format
the result, save one history record, answer with the formatted result, the
expression, and the saved record's id.  On an exception nothing is saved. -/
def get_calc (floatStr : ℚ → String) (expression created_at uid : String)
    (store : List HistEntry) : Except Err CalcResponce × List HistEntry :=
  match evaluate_expression expression with
  | .error e => (.error e, store)
  | .ok v =>
      let r := _fmt floatStr v
      let saved := History.save expression r created_at uid store
      (.ok ⟨r, expression, saved.1⟩, saved.2)

/-- Embedding of the `POST /calc` handler: convert both operands with
`float(...)`, run `calculate`, format the result like the GET handler,
save one record whose operation field is the f-string
`f"{first}{op}{last}"`, and answer with it.  On an exception nothing is
saved. -/
def post_calc (floatStr : ℚ → String) (first last op created_at uid : String)
    (store : List HistEntry) : Except Err CalcResponce × List HistEntry :=
  match pyFloat (pyStrip first.data), pyFloat (pyStrip last.data) with
  | some f, some l =>
      match calculate (.vfloat f) (.vfloat l) op with
      | .error e => (.error e, store)
      | .ok v =>
          let r := postFmt floatStr v
          let operation := first ++ op ++ last
          let saved := History.save operation r created_at uid store
          (.ok ⟨r, operation, saved.1⟩, saved.2)
  | _, _ => (.error .valueError, store)
theorem toRat_pyAdd (a b : Value) : (pyAdd a b).toRat = a.toRat + b.toRat := by
  cases a <;> cases b <;> simp [pyAdd, Value.toRat]

theorem toRat_pySub (a b : Value) : (pySub a b).toRat = a.toRat - b.toRat := by
  cases a <;> cases b <;> simp [pySub, Value.toRat]

theorem toRat_pyMul (a b : Value) : (pyMul a b).toRat = a.toRat * b.toRat := by
  cases a <;> cases b <;> simp [pyMul, Value.toRat]

theorem toRat_pyNeg (a : Value) : (pyNeg a).toRat = -a.toRat := by
  cases a <;> simp [pyNeg, Value.toRat]

/-- On trees inside the restricted grammar, `_eval_node` either returns a
value whose numeric content is the spec-side denotation, or raises
`ZeroDivisionError` exactly when the denotation is undefined. -/
theorem eval_node_spec (t : Node) (h : supported t = true) :
    (∃ v : Value, _eval_node t = .ok v ∧ specEval t = some v.toRat) ∨
    (_eval_node t = .error .zeroDivision ∧ specEval t = none) := by
  induction t with
  | expr b ih =>
      simp only [supported] at h
      simpa [_eval_node, specEval] using ih h
  | binop l op r ihl ihr =>
      simp only [supported, Bool.and_eq_true] at h
      obtain ⟨⟨hop, hl⟩, hr⟩ := h
      rcases ihl hl with ⟨lv, hlv, hls⟩ | ⟨hlv, hls⟩
      · rcases ihr hr with ⟨rv, hrv, hrs⟩ | ⟨hrv, hrs⟩
        · cases op with
          | add =>
              exact Or.inl ⟨pyAdd lv rv, by simp [_eval_node, hlv, hrv, _OPS],
                by simp [specEval, hls, hrs, toRat_pyAdd]⟩
          | sub =>
              exact Or.inl ⟨pySub lv rv, by simp [_eval_node, hlv, hrv, _OPS],
                by simp [specEval, hls, hrs, toRat_pySub]⟩
          | mult =>
              exact Or.inl ⟨pyMul lv rv, by simp [_eval_node, hlv, hrv, _OPS],
                by simp [specEval, hls, hrs, toRat_pyMul]⟩
          | div =>
              by_cases hz : rv.toRat = 0
              · exact Or.inr ⟨by simp [_eval_node, hlv, hrv, _OPS, pyDiv, hz],
                  by simp [specEval, hls, hrs, hz]⟩
              · exact Or.inl ⟨.vfloat (lv.toRat / rv.toRat),
                  by simp [_eval_node, hlv, hrv, _OPS, pyDiv, hz],
                  by simp only [specEval, hls, hrs]; rw [if_neg hz]; rfl⟩
          | mod => simp [isSupportedBin] at hop
          | pow => simp [isSupportedBin] at hop
          | floordiv => simp [isSupportedBin] at hop
        · refine Or.inr ⟨?_, ?_⟩
          · simp [_eval_node, hlv, hrv]
          · simp [specEval, hls, hrs]
      · refine Or.inr ⟨?_, ?_⟩
        · simp [_eval_node, hlv]
        · simp [specEval, hls]
  | unary op e ih =>
      simp only [supported, Bool.and_eq_true] at h
      obtain ⟨hop, he⟩ := h
      cases op with
      | uadd =>
          rcases ih he with ⟨v, hv, hs⟩ | ⟨hv, hs⟩
          · exact Or.inl ⟨v, by simp [_eval_node, hv], by simp [specEval, hs]⟩
          · exact Or.inr ⟨by simp [_eval_node, hv], by simp [specEval, hs]⟩
      | usub =>
          rcases ih he with ⟨v, hv, hs⟩ | ⟨hv, hs⟩
          · exact Or.inl ⟨pyNeg v, by simp [_eval_node, hv],
              by simp [specEval, hs, toRat_pyNeg]⟩
          · exact Or.inr ⟨by simp [_eval_node, hv], by simp [specEval, hs]⟩
      | otherUnary => simp [isSupportedUnary] at hop
  | const c =>
      cases c with
      | cint n => exact Or.inl ⟨.vint n, rfl, rfl⟩
      | cfloat q => exact Or.inl ⟨.vfloat q, rfl, rfl⟩
      | cother => simp [supported] at h
  | othernode => simp [supported] at h

/-- A tree containing an unsupported binary operator or a non-numeric
constant never evaluates to a value. -/
theorem eval_node_bad (t : Node) (h : containsBad t = true) :
    ∃ e, _eval_node t = .error e := by
  induction t with
  | expr b ih =>
      simp only [containsBad] at h
      obtain ⟨e, he⟩ := ih h
      exact ⟨e, by simp [_eval_node, he]⟩
  | binop l op r ihl ihr =>
      simp only [containsBad, Bool.or_eq_true] at h
      cases hl : _eval_node l with
      | error e => exact ⟨e, by simp [_eval_node, hl]⟩
      | ok lv =>
        cases hr : _eval_node r with
        | error e => exact ⟨e, by simp [_eval_node, hl, hr]⟩
        | ok rv =>
          have hop : isSupportedBin op = false := by
            rcases h with (h | h) | h
            · simpa using h
            · obtain ⟨e, he⟩ := ihl h
              rw [hl] at he
              exact absurd he (by simp)
            · obtain ⟨e, he⟩ := ihr h
              rw [hr] at he
              exact absurd he (by simp)
          have hops : _OPS op = none := by
            cases op <;> simp [isSupportedBin] at hop <;> rfl
          exact ⟨.valueError, by simp [_eval_node, hl, hr, hops]⟩
  | unary op e ih =>
      simp only [containsBad] at h
      cases op with
      | uadd =>
          obtain ⟨er, he⟩ := ih h
          exact ⟨er, by simp [_eval_node, he]⟩
      | usub =>
          obtain ⟨er, he⟩ := ih h
          exact ⟨er, by simp [_eval_node, he]⟩
      | otherUnary => exact ⟨.valueError, rfl⟩
  | const c =>
      cases c with
      | cint n => simp [containsBad] at h
      | cfloat q => simp [containsBad] at h
      | cother => exact ⟨.valueError, rfl⟩
  | othernode => exact ⟨.valueError, rfl⟩


example : evaluate_expression "2+3*4" = .ok (.vint 14) := rfl

example : evaluate_expression "1/0" = .error .zeroDivision := rfl

example : evaluate_expression "-3+5" = .ok (.vint 2) := rfl

example : evaluate_expression "1/0+2%3" = .error .zeroDivision := rfl

example : parseExpr "2+3*4" =
    some (.expr (.binop (.const (.cint 2)) .add
      (.binop (.const (.cint 3)) .mult (.const (.cint 4))))) := by decide


/-- Every error `_eval_node` raises is a `ValueError` or a
`ZeroDivisionError`; it never raises a `SyntaxError`. -/
theorem eval_node_err_kinds (t : Node) (e : Err) (h : _eval_node t = .error e) :
    e = .valueError ∨ e = .zeroDivision := by
  induction t with
  | expr b ih =>
      exact ih (by simpa [_eval_node] using h)
  | binop l op r ihl ihr =>
      rw [_eval_node] at h
      cases hl : _eval_node l with
      | error e1 =>
          rw [hl] at h
          cases h
          exact ihl hl
      | ok lv =>
          rw [hl] at h
          cases hr : _eval_node r with
          | error e2 =>
              rw [hr] at h
              cases h
              exact ihr hr
          | ok rv =>
              rw [hr] at h
              cases op with
              | add => simp [_OPS] at h
              | sub => simp [_OPS] at h
              | mult => simp [_OPS] at h
              | div =>
                  simp only [_OPS] at h
                  unfold pyDiv at h
                  by_cases hz : rv.toRat = 0
                  · rw [if_pos hz] at h
                    cases h
                    exact Or.inr rfl
                  · rw [if_neg hz] at h
                    cases h
              | mod =>
                  simp only [_OPS] at h
                  cases h
                  exact Or.inl rfl
              | pow =>
                  simp only [_OPS] at h
                  cases h
                  exact Or.inl rfl
              | floordiv =>
                  simp only [_OPS] at h
                  cases h
                  exact Or.inl rfl
  | unary op e2 ih =>
      cases op with
      | uadd =>
          rw [_eval_node] at h
          cases he : _eval_node e2 with
          | error e3 =>
              rw [he] at h
              cases h
              exact ih he
          | ok v =>
              rw [he] at h
              cases h
      | usub =>
          rw [_eval_node] at h
          cases he : _eval_node e2 with
          | error e3 =>
              rw [he] at h
              cases h
              exact ih he
          | ok v =>
              rw [he] at h
              cases h
      | otherUnary =>
          rw [_eval_node] at h
          cases h
          exact Or.inl rfl
  | const c =>
      cases c with
      | cint n => simp [_eval_node] at h
      | cfloat q => simp [_eval_node] at h
      | cother =>
          rw [_eval_node] at h
          cases h
          exact Or.inl rfl
  | othernode =>
      rw [_eval_node] at h
      cases h
      exact Or.inl rfl

/-- C1: for every expression string in the restricted grammar (numeric
constants, binary `+ - * /`, unary `+`/`-`), `evaluate_expression` parses
the string into an operator/operand tree and reduces it, returning a number
whose value is the expression's value under standard arithmetic precedence
(witnessed at `2+3*4 = 14`). -/
theorem evaluate_expression_standard_precedence (s : String) (t : Node) (q : ℚ)
    (hp : parseExpr s = some t) (hs : supported t = true)
    (hq : specEval t = some q) :
    ∃ v : Value, evaluate_expression s = .ok v ∧ v.toRat = q := by
  rcases eval_node_spec t hs with ⟨v, hv1, hv2⟩ | ⟨hv1, hv2⟩
  · refine ⟨v, ?_, ?_⟩
    · simp [evaluate_expression, hp, hv1]
    · rw [hq] at hv2
      exact (Option.some_inj.mp hv2).symm
  · rw [hq] at hv2
    cases hv2

/-- Witness for C1 at the spec's own example `2+3*4`. -/
theorem evaluate_expression_standard_precedence_witness :
    ∃ v : Value, evaluate_expression "2+3*4" = .ok v ∧ v.toRat = 14 :=
  evaluate_expression_standard_precedence "2+3*4"
    (.expr (.binop (.const (.cint 2)) .add
      (.binop (.const (.cint 3)) .mult (.const (.cint 4))))) 14
    rfl rfl (by norm_num [specEval])

/-- C2: `calculate` returns `first + last`, `first - last`, `first * last`
for the symbols `+ - *`, and true division `first / last` for `/` when the
divisor is nonzero. -/
theorem calculate_binary_ops (a b : Value) :
    (∃ v, calculate a b "+" = .ok v ∧ v.toRat = a.toRat + b.toRat) ∧
    (∃ v, calculate a b "-" = .ok v ∧ v.toRat = a.toRat - b.toRat) ∧
    (∃ v, calculate a b "*" = .ok v ∧ v.toRat = a.toRat * b.toRat) ∧
    (b.toRat ≠ 0 →
      ∃ v, calculate a b "/" = .ok v ∧ v.toRat = a.toRat / b.toRat) := by
  refine ⟨⟨pyAdd a b, rfl, toRat_pyAdd a b⟩,
    ⟨pySub a b, rfl, toRat_pySub a b⟩,
    ⟨pyMul a b, rfl, toRat_pyMul a b⟩, fun hz => ?_⟩
  refine ⟨.vfloat (a.toRat / b.toRat), ?_, rfl⟩
  show pyDiv a b = _
  unfold pyDiv
  rw [if_neg hz]

/-- Witness for C2 at `10 / 4`. -/
theorem calculate_binary_ops_witness :
    Value.toRat (.vint 4) ≠ 0 ∧
    (∃ v, calculate (.vint 10) (.vint 4) "/" = .ok v ∧
      v.toRat = Value.toRat (.vint 10) / Value.toRat (.vint 4)) :=
  ⟨by norm_num [Value.toRat],
    (calculate_binary_ops (.vint 10) (.vint 4)).2.2.2 (by norm_num [Value.toRat])⟩

/-- C8: division by zero is not converted to `ValueError`: `calculate` with
a zero divisor (integer `0` or float `0.0`) raises `ZeroDivisionError`, and
`evaluate_expression "1/0"` re-raises `ZeroDivisionError` unchanged. -/
theorem division_by_zero_not_valueerror :
    (∀ a : Value, calculate a (.vint 0) "/" = .error .zeroDivision ∧
      calculate a (.vfloat 0) "/" = .error .zeroDivision) ∧
    evaluate_expression "1/0" = .error .zeroDivision :=
  ⟨fun _ => ⟨rfl, rfl⟩, rfl⟩

/-- C10: the inline result formatting of `post_calc` agrees with `get_calc`'s
`_fmt` on every value: the integer string for a float of integral value,
`str(result)` otherwise. -/
theorem post_formatting_matches_get (floatStr : ℚ → String) (v : Value) :
    postFmt floatStr v = _fmt floatStr v := by
  cases v <;> rfl

/-- Counterexample to C3 as stated: the expression `1/0+2%3` contains the
binary operator `%`, which is outside the supported set, yet
`evaluate_expression` raises `ZeroDivisionError` (from the division
evaluated first), not `ValueError`. -/
theorem unsupported_raises_valueerror_cex :
    (∃ t, parseExpr "1/0+2%3" = some t ∧ containsBad t = true) ∧
    evaluate_expression "1/0+2%3" = .error .zeroDivision ∧
    Err.zeroDivision ≠ Err.valueError :=
  ⟨⟨.expr (.binop (.binop (.const (.cint 1)) .div (.const (.cint 0))) .add
      (.binop (.const (.cint 2)) .mod (.const (.cint 3)))), rfl, rfl⟩,
    rfl, by decide⟩

/-- C3 (amended): `calculate` raises `ValueError` for every operator symbol
outside `+ - * /`; `evaluate_expression` never returns a value on an
expression containing an unsupported binary operator or a non-numeric
constant — it raises `ValueError`, or `ZeroDivisionError` when a division
by zero is evaluated before the offending node. -/
theorem unsupported_rejected_amended :
    (∀ (a b : Value) (s : String),
      s ≠ "+" → s ≠ "-" → s ≠ "*" → s ≠ "/" →
      calculate a b s = .error .valueError) ∧
    (∀ (s : String) (t : Node), parseExpr s = some t → containsBad t = true →
      ∃ e, evaluate_expression s = .error e ∧
        (e = .valueError ∨ e = .zeroDivision)) := by
  constructor
  · intro a b s h1 h2 h3 h4
    unfold calculate
    rw [if_neg h1, if_neg h2, if_neg h3, if_neg h4]
  · intro s t hp hb
    obtain ⟨e, he⟩ := eval_node_bad t hb
    exact ⟨e, by simp [evaluate_expression, hp, he], eval_node_err_kinds t e he⟩

/-- Witness for the amended C3 at the operator `%`. -/
theorem unsupported_rejected_amended_witness :
    calculate (.vint 1) (.vint 2) "%" = .error .valueError ∧
    (∃ e, evaluate_expression "2%3" = .error e ∧
      (e = .valueError ∨ e = .zeroDivision)) :=
  ⟨unsupported_rejected_amended.1 (.vint 1) (.vint 2) "%"
      (by decide) (by decide) (by decide) (by decide),
    unsupported_rejected_amended.2 "2%3"
      (.expr (.binop (.const (.cint 2)) .mod (.const (.cint 3)))) rfl rfl⟩

/-- C4: `_handle_calculation` appends exactly one calculation to the
history when the input splits into exactly three parts that validate and
execute successfully, and leaves the history completely unchanged on every
other input. -/
theorem handle_calculation_atomic (expression : String)
    (history : List Calculation) :
    (calcOk expression = true →
      ∃ c, _handle_calculation expression history = history ++ [c]) ∧
    (calcOk expression = false →
      _handle_calculation expression history = history) := by
  unfold calcOk _handle_calculation
  rcases hp : pySplitWs (expression.data.length + 1) expression.data with
    _ | ⟨p0, _ | ⟨p1, _ | ⟨p2, _ | ⟨p3, ps⟩⟩⟩⟩ <;>
    simp only [hp] <;>
    try exact ⟨fun h => absurd h (by decide), fun x => x⟩
  rcases hv1 : validate_number (String.mk p0) with e1 | n1 <;>
    rcases hv2 : validate_operation (String.mk p1) with e2 | op <;>
    rcases hv3 : validate_number (String.mk p2) with e3 | n2 <;>
    simp only [hv1, hv2, hv3] <;>
    try exact ⟨fun h => absurd h (by decide), fun x => x⟩
  rcases hc : CalculationFactory.create_calculation n1 n2 op with ec | c <;>
    simp only [hc] <;>
    try exact ⟨fun h => absurd h (by decide), fun x => x⟩
  rcases he : c.execute with ee | c2 <;>
    simp only [he] <;>
    try exact ⟨fun h => absurd h (by decide), fun x => x⟩
  constructor
  · exact fun _ => ⟨c2, rfl⟩
  · exact fun hx => absurd hx (by decide)

/-- Witness for C4 at the successful input `5 + 3` on the empty history. -/
theorem handle_calculation_atomic_witness :
    calcOk "5 + 3" = true ∧
    (∃ c, _handle_calculation "5 + 3" [] = [] ++ [c]) :=
  ⟨by decide, (handle_calculation_atomic "5 + 3" []).1 (by decide)⟩

/-- C5: the persistence layer is append-only: every successful `GET /calc`
or `POST /calc` appends exactly one record to the store, every failing one
leaves the store untouched (so no handler removes or modifies an existing
record), and `GET /history` returns every stored record. -/
theorem history_append_only (floatStr : ℚ → String)
    (expression first last op created_at uid : String)
    (store : List HistEntry) :
    (∀ resp store2,
      get_calc floatStr expression created_at uid store = (.ok resp, store2) →
      ∃ en, store2 = store ++ [en]) ∧
    (∀ er store2,
      get_calc floatStr expression created_at uid store = (.error er, store2) →
      store2 = store) ∧
    (∀ resp store2,
      post_calc floatStr first last op created_at uid store = (.ok resp, store2) →
      ∃ en, store2 = store ++ [en]) ∧
    (∀ er store2,
      post_calc floatStr first last op created_at uid store = (.error er, store2) →
      store2 = store) ∧
    get_history store = store := by
  refine ⟨?_, ?_, ?_, ?_, rfl⟩
  · intro resp store2 h
    unfold get_calc at h
    cases he : evaluate_expression expression with
    | error e => rw [he] at h; simp at h
    | ok v =>
        rw [he] at h
        simp only [History.save, Prod.mk.injEq] at h
        exact ⟨_, h.2.symm⟩
  · intro er store2 h
    unfold get_calc at h
    cases he : evaluate_expression expression with
    | error e =>
        rw [he] at h
        simp only [Prod.mk.injEq] at h
        exact h.2.symm
    | ok v => rw [he] at h; simp [History.save] at h
  · intro resp store2 h
    unfold post_calc at h
    cases hf : pyFloat (pyStrip first.data) with
    | none => rw [hf] at h; simp at h
    | some fv =>
        cases hl : pyFloat (pyStrip last.data) with
        | none => rw [hf, hl] at h; simp at h
        | some lv =>
            rw [hf, hl] at h
            cases hc : calculate (.vfloat fv) (.vfloat lv) op with
            | error e => simp [hc] at h
            | ok v =>
                simp only [hc, History.save, Prod.mk.injEq] at h
                exact ⟨_, h.2.symm⟩
  · intro er store2 h
    unfold post_calc at h
    cases hf : pyFloat (pyStrip first.data) with
    | none =>
        rw [hf] at h
        simp only [Prod.mk.injEq] at h
        exact h.2.symm
    | some fv =>
        cases hl : pyFloat (pyStrip last.data) with
        | none =>
            rw [hf, hl] at h
            simp only [Prod.mk.injEq] at h
            exact h.2.symm
        | some lv =>
            rw [hf, hl] at h
            cases hc : calculate (.vfloat fv) (.vfloat lv) op with
            | error e =>
                simp only [hc, Prod.mk.injEq] at h
                exact h.2.symm
            | ok v => simp [hc, History.save] at h

/-- Witness for C5: a successful `GET /calc` of `2+3*4` on the empty store
appends one record. -/
theorem history_append_only_witness :
    ∃ en, [(⟨"2+3*4", "14", "t0", "id0"⟩ : HistEntry)] = [] ++ [en] :=
  (history_append_only (fun _ => "") "2+3*4" "1" "1" "+" "t0" "id0" []).1
    ⟨"14", "2+3*4", "id0"⟩ [⟨"2+3*4", "14", "t0", "id0"⟩] rfl

/-- C6: on every successful `GET /calc` or `POST /calc` the saved record
agrees with the response: same operation field, same result field, and the
response's uid is the saved record's id. -/
theorem saved_record_matches_response (floatStr : ℚ → String)
    (expression first last op created_at uid : String)
    (store : List HistEntry) :
    (∀ resp store2,
      get_calc floatStr expression created_at uid store = (.ok resp, store2) →
      ∃ en, store2 = store ++ [en] ∧ en.operation = resp.operation ∧
        en.result = resp.result ∧ resp.uid = en.uid) ∧
    (∀ resp store2,
      post_calc floatStr first last op created_at uid store = (.ok resp, store2) →
      ∃ en, store2 = store ++ [en] ∧ en.operation = resp.operation ∧
        en.result = resp.result ∧ resp.uid = en.uid) := by
  constructor
  · intro resp store2 h
    unfold get_calc at h
    cases he : evaluate_expression expression with
    | error e => rw [he] at h; simp at h
    | ok v =>
        rw [he] at h
        simp only [History.save, Prod.mk.injEq, Except.ok.injEq] at h
        obtain ⟨h1, h2⟩ := h
        refine ⟨⟨expression, _fmt floatStr v, created_at, uid⟩, h2.symm, ?_, ?_, ?_⟩ <;>
          rw [← h1]
  · intro resp store2 h
    unfold post_calc at h
    cases hf : pyFloat (pyStrip first.data) with
    | none => rw [hf] at h; simp at h
    | some fv =>
        cases hl : pyFloat (pyStrip last.data) with
        | none => rw [hf, hl] at h; simp at h
        | some lv =>
            rw [hf, hl] at h
            cases hc : calculate (.vfloat fv) (.vfloat lv) op with
            | error e => simp [hc] at h
            | ok v =>
                simp only [hc, History.save, Prod.mk.injEq, Except.ok.injEq] at h
                obtain ⟨h1, h2⟩ := h
                refine ⟨⟨first ++ op ++ last, postFmt floatStr v, created_at, uid⟩,
                  h2.symm, ?_, ?_, ?_⟩ <;> rw [← h1]

/-- Witness for C6: the record saved by `GET /calc` of `2+3*4` agrees with
the response. -/
theorem saved_record_matches_response_witness :
    ∃ en, [(⟨"2+3*4", "14", "t0", "id0"⟩ : HistEntry)] = [] ++ [en] ∧
      en.operation = CalcResponce.operation ⟨"14", "2+3*4", "id0"⟩ ∧
      en.result = CalcResponce.result ⟨"14", "2+3*4", "id0"⟩ ∧
      CalcResponce.uid ⟨"14", "2+3*4", "id0"⟩ = en.uid :=
  (saved_record_matches_response (fun _ => "") "2+3*4" "1" "1" "+" "t0" "id0" []).1
    ⟨"14", "2+3*4", "id0"⟩ [⟨"2+3*4", "14", "t0", "id0"⟩] rfl

/-- Executing a freshly created calculation applies the function its
operator symbol is bound to. -/
theorem execute_applies_bound (a b : Value) (s : String)
    (f : Value → Value → Except Err Value) (hf : opFunction s = some f) :
    (Calculation.mk a b s none).execute =
      Except.map (fun v => Calculation.mk a b s (some v)) (f a b) := by
  unfold Calculation.execute
  simp only [hf]
  cases hfa : f a b <;> simp [Except.map, hfa]

/-- C7: for every pair of validated numbers and every operation string
accepted by the validator, `CalculationFactory.create_calculation` produces
a calculation whose `execute` applies the two-argument function bound to
that operator symbol to the two operands. -/
theorem factory_binds_operator (a b : Value) (op vop : String)
    (hv : validate_operation op = .ok vop) :
    ∃ f, opFunction vop = some f ∧
      CalculationFactory.create_calculation a b vop = .ok ⟨a, b, vop, none⟩ ∧
      (Calculation.mk a b vop none).execute =
        Except.map (fun v => Calculation.mk a b vop (some v)) (f a b) := by
  unfold validate_operation at hv
  by_cases h0 : (pyStrip op.data).isEmpty
  · rw [if_pos h0] at hv
    cases hv
  · rw [if_neg h0] at hv
    by_cases h1 : valid_operations.contains (String.mk (pyLower (pyStrip op.data)))
    · rw [if_pos h1] at hv
      have hvop : vop = String.mk (pyStrip op.data) := (Except.ok.inj hv).symm
      subst hvop
      have h2 : String.mk (pyLower (pyStrip op.data)) ∈ valid_operations := by
        simpa using h1
      have hex : ∃ f, opFunction (String.mk (pyStrip op.data)) = some f := by
        simp only [valid_operations, List.mem_cons, List.not_mem_nil, or_false] at h2
        rcases h2 with h2 | h2 | h2 | h2 | h2 | h2 | h2 | h2
        · exact ⟨fun x y => .ok (pyAdd x y), by simp [opFunction, h2]⟩
        · exact ⟨fun x y => .ok (pySub x y), by simp [opFunction, h2]⟩
        · exact ⟨fun x y => .ok (pyMul x y), by simp [opFunction, h2]⟩
        · exact ⟨pyDiv, by simp [opFunction, h2]⟩
        · exact ⟨fun x y => .ok (pyAdd x y), by simp [opFunction, h2]⟩
        · exact ⟨fun x y => .ok (pySub x y), by simp [opFunction, h2]⟩
        · exact ⟨fun x y => .ok (pyMul x y), by simp [opFunction, h2]⟩
        · exact ⟨pyDiv, by simp [opFunction, h2]⟩
      obtain ⟨f, hf⟩ := hex
      exact ⟨f, hf,
        by simp [CalculationFactory.create_calculation, hf],
        execute_applies_bound a b _ f hf⟩
    · rw [if_neg h1] at hv
      cases hv

/-- Witness for C7 at the operation `+` on `5` and `3`. -/
theorem factory_binds_operator_witness :
    validate_operation "+" = .ok "+" ∧
    (∃ f, opFunction "+" = some f ∧
      CalculationFactory.create_calculation (.vint 5) (.vint 3) "+" =
        .ok ⟨.vint 5, .vint 3, "+", none⟩ ∧
      (Calculation.mk (.vint 5) (.vint 3) "+" none).execute =
        Except.map (fun v => Calculation.mk (.vint 5) (.vint 3) "+" (some v))
          (f (.vint 5) (.vint 3))) :=
  ⟨rfl, factory_binds_operator (.vint 5) (.vint 3) "+" "+" rfl⟩

/-- C9: `get_history` returns a copy: overwriting the returned list in any
way leaves the stored history unchanged as seen by the heap, by `len`, and
by `get_last_calculation`; `get_last_calculation` is `none` exactly on an
empty history and otherwise the most recently added calculation. -/
theorem get_history_returns_copy (h : Heap) (self r : Nat) (h1 : Heap)
    (hlive : self < h.next)
    (hgh : CalculatorHistory.get_history self h = (r, h1)) :
    h1.mem r = h.mem self ∧
    (∀ junk, (listSet r junk h1).mem self = h.mem self) ∧
    (∀ junk, CalculatorHistory.len self (listSet r junk h1) =
      CalculatorHistory.len self h) ∧
    (∀ junk, CalculatorHistory.get_last_calculation self (listSet r junk h1) =
      CalculatorHistory.get_last_calculation self h) ∧
    (CalculatorHistory.get_last_calculation self h = none ↔ h.mem self = []) ∧
    (∀ c, CalculatorHistory.get_last_calculation self
      (CalculatorHistory.add_calculation self c h) = some c) := by
  unfold CalculatorHistory.get_history at hgh
  injection hgh with hr hh1
  subst hr
  subst hh1
  have hne : self ≠ h.next := Nat.ne_of_lt hlive
  refine ⟨by simp, ?_, ?_, ?_, ?_, ?_⟩
  · intro junk
    simp [listSet, hne]
  · intro junk
    simp [CalculatorHistory.len, listSet, hne]
  · intro junk
    simp [CalculatorHistory.get_last_calculation, listSet, hne]
  · exact List.getLast?_eq_none_iff
  · intro c
    simp [CalculatorHistory.get_last_calculation, CalculatorHistory.add_calculation,
      listSet, List.getLast?_concat]

/-- Witness for C9 on a live one-entry heap. -/
theorem get_history_returns_copy_witness :
    (0 : Nat) < (Heap.mk (fun _ => ([] : List Calculation)) 1).next ∧
    ((Heap.mk (fun n => if n = 1 then [] else []) 2).mem 1 =
        (Heap.mk (fun _ => ([] : List Calculation)) 1).mem 0 ∧
      (∀ junk, (listSet 1 junk (Heap.mk (fun n => if n = 1 then [] else []) 2)).mem 0 =
        (Heap.mk (fun _ => ([] : List Calculation)) 1).mem 0) ∧
      (∀ junk, CalculatorHistory.len 0
          (listSet 1 junk (Heap.mk (fun n => if n = 1 then [] else []) 2)) =
        CalculatorHistory.len 0 (Heap.mk (fun _ => ([] : List Calculation)) 1)) ∧
      (∀ junk, CalculatorHistory.get_last_calculation 0
          (listSet 1 junk (Heap.mk (fun n => if n = 1 then [] else []) 2)) =
        CalculatorHistory.get_last_calculation 0
          (Heap.mk (fun _ => ([] : List Calculation)) 1)) ∧
      (CalculatorHistory.get_last_calculation 0
          (Heap.mk (fun _ => ([] : List Calculation)) 1) = none ↔
        (Heap.mk (fun _ => ([] : List Calculation)) 1).mem 0 = []) ∧
      (∀ c, CalculatorHistory.get_last_calculation 0
        (CalculatorHistory.add_calculation 0 c
          (Heap.mk (fun _ => ([] : List Calculation)) 1)) = some c)) :=
  ⟨by decide,
    get_history_returns_copy (Heap.mk (fun _ => []) 1) 0 1
      (Heap.mk (fun n => if n = 1 then [] else []) 2) (by decide) rfl⟩
